import Mathlib

/-!
# Verification of the jit-runner-manager admission / queueing / dispatch core

A shallow embedding of the Python sources of `jit-runner-manager`
(`app/redis_client.py`, `app/config.py`, `app/tasks.py`,
`app/webhook_handler.py`, `app/org_limits.py`, `app/admin_router.py`) and
proofs about the embedded operations.

Modelling conventions:
* The Redis store is a record of association lists (one entry per key); a
  missing key is an absent association.  Redis string counters are `Int`
  (Python ints), list values are Lean lists, the `org_limits` hash is an
  association list.
* `int(value) if value else 0` on a counter read is `Option.getD 0`.
* Each Python function is translated one-to-one into a Lean function that
  takes the store (and any I/O results it consumes) and returns its result
  together with the updated store.
-/

namespace JitRunner

/-! ## Association-list primitives (the Redis key space) -/

/-- Look up the value stored under a key (first match). -/
def aget (m : List (String × α)) (k : String) : Option α :=
  (m.find? (fun p => p.1 = k)).map (·.2)

/-- Write a value under a key: replace the existing association, or append a
fresh one. -/
def aset : List (String × α) → String → α → List (String × α)
  | [], k, v => [(k, v)]
  | (k', v') :: rest, k, v =>
    if k' = k then (k, v) :: rest else (k', v') :: aset rest k v

/-- Delete a key (all associations for it). -/
def adel (m : List (String × α)) (k : String) : List (String × α) :=
  m.filter (fun p => p.1 ≠ k)

/-! ## Data model (§3 of the spec, from `redis_client.py`) -/

/-- The JSON payload pushed by `add_pending_job_sync` onto `org:<T>:pending`.
`timestamp` is optional to model legacy entries written before the field was
introduced; `add_pending_job_sync` always writes it. -/
structure PendingJob where
  job_id : Nat
  run_id : Nat
  job_name : String
  repo_full_name : String
  labels : List String
  org_name : String
  timestamp : Option Nat
deriving DecidableEq, Repr

/-- The hash stored under `runner:<R>:info` by `save_runner_info_sync`. -/
structure RunnerRecord where
  runner_name : String
  org_name : String
  job_id : Nat
  run_id : Nat
  repo_full_name : String
deriving DecidableEq, Repr

/-- The shared Redis state: `org:<T>:running` counters, `global:total_running`,
the `org_limits` hash, the `org:<T>:pending` FIFO lists, and the
`runner:<R>:info` hashes (keyed by runner name).  TTLs are not modelled. -/
structure Store where
  orgRunning : List (String × Int)
  totalRunning : Option Int
  orgLimits : List (String × Int)
  pending : List (String × List PendingJob)
  runners : List (String × RunnerRecord)
deriving DecidableEq, Repr

def Store.empty : Store := ⟨[], none, [], [], []⟩

/-! ## `RedisClientSync` operations (`app/redis_client.py`) -/

/-- `get_org_running_count_sync` (redis_client.py 258-261):
`int(value) if value else 0`. -/
def get_org_running_count_sync (s : Store) (org : String) : Int :=
  (aget s.orgRunning org).getD 0

/-- `increment_org_running_sync` (263-265): Redis `INCR` initialises a missing
key to 0 and stores the incremented value. -/
def increment_org_running_sync (s : Store) (org : String) : Int × Store :=
  let v := (aget s.orgRunning org).getD 0 + 1
  (v, { s with orgRunning := aset s.orgRunning org v })

/-- `decrement_org_running_sync` (267-273): Redis `DECR`, then if the result is
negative the key is reset to 0 and 0 is returned. -/
def decrement_org_running_sync (s : Store) (org : String) : Int × Store :=
  let v := (aget s.orgRunning org).getD 0 - 1
  let s' : Store := { s with orgRunning := aset s.orgRunning org v }
  if v < 0 then (0, { s' with orgRunning := aset s'.orgRunning org 0 })
  else (v, s')

/-- `set_org_running_sync` (275-277). -/
def set_org_running_sync (s : Store) (org : String) (count : Int) : Store :=
  { s with orgRunning := aset s.orgRunning org count }

/-- `get_org_max_limit_sync` (281-287): `HGET org_limits <org>`, `none` when
the field is absent. -/
def get_org_max_limit_sync (s : Store) (org : String) : Option Int :=
  aget s.orgLimits org

/-- `set_org_max_limit_sync` (289-292). -/
def set_org_max_limit_sync (s : Store) (org : String) (limit : Int) : Store :=
  { s with orgLimits := aset s.orgLimits org limit }

/-- `get_all_org_limits_sync` (300-310). -/
def get_all_org_limits_sync (s : Store) : List (String × Int) :=
  s.orgLimits

/-- `set_org_limits_bulk_sync` (312-318): no-op on an empty mapping, otherwise
one `HSET` per field. -/
def set_org_limits_bulk_sync (s : Store) (limits : List (String × Int)) : Store :=
  if limits = [] then s
  else { s with orgLimits := limits.foldl (fun m p => aset m p.1 p.2) s.orgLimits }

/-- `get_effective_org_limit_sync` (320-325): custom limit if present, else the
configured `max_per_org` default. -/
def get_effective_org_limit_sync (s : Store) (max_per_org : Int) (org : String) : Int :=
  (get_org_max_limit_sync s org).getD max_per_org

/-- `get_total_running_sync` (329-332). -/
def get_total_running_sync (s : Store) : Int :=
  s.totalRunning.getD 0

/-- `increment_total_running_sync` (334-336). -/
def increment_total_running_sync (s : Store) : Int × Store :=
  let v := s.totalRunning.getD 0 + 1
  (v, { s with totalRunning := some v })

/-- `decrement_total_running_sync` (338-344). -/
def decrement_total_running_sync (s : Store) : Int × Store :=
  let v := s.totalRunning.getD 0 - 1
  if v < 0 then (0, { s with totalRunning := some 0 })
  else (v, { s with totalRunning := some v })

/-- `set_total_running_sync` (346-348). -/
def set_total_running_sync (s : Store) (count : Int) : Store :=
  { s with totalRunning := some count }

/-- `add_pending_job_sync` (352-372): `RPUSH` of the JSON payload with the
current timestamp onto `org:<org>:pending`.  The async `add_pending_job`
(145-165) used by the webhook handler is byte-for-byte the same operation. -/
def add_pending_job_sync (s : Store) (org : String) (job_id run_id : Nat)
    (job_name repo_full_name : String) (labels : List String) (now : Nat) : Store :=
  let job : PendingJob :=
    { job_id := job_id, run_id := run_id, job_name := job_name,
      repo_full_name := repo_full_name, labels := labels, org_name := org,
      timestamp := some now }
  { s with pending := aset s.pending org ((aget s.pending org).getD [] ++ [job]) }

/-- `save_runner_info_sync` (390-407); the TTL is not modelled. -/
def save_runner_info_sync (s : Store) (runner_name org : String)
    (job_id run_id : Nat) (repo_full_name : String) : Store :=
  let record : RunnerRecord :=
    { runner_name := runner_name, org_name := org, job_id := job_id,
      run_id := run_id, repo_full_name := repo_full_name }
  { s with runners := aset s.runners runner_name record }

/-- `delete_runner_info_sync` (418-420). -/
def delete_runner_info_sync (s : Store) (runner_name : String) : Store :=
  { s with runners := adel s.runners runner_name }

/-- `get_all_runners_sync` (422-431): scan of `runner:*:info`. -/
def get_all_runners_sync (s : Store) : List (String × RunnerRecord) :=
  s.runners

/-! ### `peek_all_pending_jobs_sync` (435-462)

The Python code collects every entry of every `org:*:pending` list and then
calls `list.sort(key=lambda x: x[2].get("timestamp", 0))`, a *stable*
ascending sort.  `List.mergeSort` does not reduce in the kernel, so the stable
sort is embedded as a stable insertion sort (insert after all elements with a
key less than or equal to the new element's key), which computes the same
list as any stable ascending sort by the same key. -/

/-- Sort key of a peeked entry: `job_data.get("timestamp", 0)`. -/
def tsOf (e : String × Nat × PendingJob) : Nat :=
  e.2.2.timestamp.getD 0

/-- Stable insertion into an ascending-by-`tsOf` list: the new element goes
after every element whose key is `≤` its own. -/
def insertByTs (a : String × Nat × PendingJob) :
    List (String × Nat × PendingJob) → List (String × Nat × PendingJob)
  | [] => [a]
  | b :: bs => if tsOf a < tsOf b then a :: b :: bs else b :: insertByTs a bs

/-- Stable ascending sort by `tsOf`, processing elements left to right. -/
def sortByTs (l : List (String × Nat × PendingJob)) :
    List (String × Nat × PendingJob) :=
  l.foldl (fun acc a => insertByTs a acc) []

/-- `job_data["timestamp"] = 0` compatibility shim for legacy entries
(455-457): after peeking, the timestamp field is always present. -/
def withDefaultTs (j : PendingJob) : PendingJob :=
  { j with timestamp := some (j.timestamp.getD 0) }

/-- `peek_all_pending_jobs_sync` (435-462): every entry of every pending list,
tagged with its org and index, sorted ascending by timestamp.  The key-scan
enumeration order is unspecified in Redis; the embedding enumerates the
association list in order (the final sorted result does not depend on it for
any property proved below). -/
def peek_all_pending_jobs_sync (s : Store) : List (String × Nat × PendingJob) :=
  sortByTs (s.pending.flatMap (fun p =>
    (p.2.enum).map (fun e => (p.1, e.1, withDefaultTs e.2))))

/-! ### `remove_pending_jobs_by_job_ids_sync` (464-509) -/

/-- The `org_jobs` grouping dict (477-482): group the `job_id`s of the jobs to
remove by their `org_name`, keeping first-seen org order (Python dict
insertion order). -/
def addToGroup : List (String × List Nat) → String → Nat → List (String × List Nat)
  | [], org, id => [(org, [id])]
  | (o, ids) :: rest, org, id =>
    if o = org then (o, ids ++ [id]) :: rest else (o, ids) :: addToGroup rest org id

def groupJobIdsByOrg (jobs : List PendingJob) : List (String × List Nat) :=
  jobs.foldl (fun acc j => addToGroup acc j.org_name j.job_id) []

/-- One iteration of the per-org loop (484-507): read the list, keep the items
whose `job_id` is not in the removal set, and atomically delete + re-push.
A re-pushed empty list leaves the key absent in Redis; the embedding stores an
empty list, which no reader distinguishes from an absent key. -/
def removeForOrg (s : Store) (removed : Nat) (org : String) (ids : List Nat) :
    Nat × Store :=
  let items := (aget s.pending org).getD []
  let keep := items.filter (fun j => decide (j.job_id ∉ ids))
  (removed + (items.length - keep.length),
   { s with pending := aset s.pending org keep })

/-- `remove_pending_jobs_by_job_ids_sync` (464-509): returns the number of
entries removed and the updated store. -/
def remove_pending_jobs_by_job_ids_sync (s : Store) (jobs_to_remove : List PendingJob) :
    Nat × Store :=
  (groupJobIdsByOrg jobs_to_remove).foldl
    (fun acc p => removeForOrg acc.2 acc.1 p.1 p.2) (0, s)

/-! ## `RunnerConfig` (`app/config.py` 88-106)

The dataclass declares `max_per_org` (default 10), `max_total` (default 200),
`labels` (default `["code-linux"]`) and `group`; the constant `name_prefix`
(`"jit-runner"`) is embedded in `runnerNameFor` below.  The dataclass declares
**no** `max_batch_size` field, although `tests/test_config.py` (91, 109)
asserts one with default 10 and env override `MAX_BATCH_SIZE`, and
`tasks.py` 148 reads it. -/
structure RunnerConfig where
  max_per_org : Int
  max_total : Int
  labels : List String
  group : String
deriving DecidableEq, Repr

/-- The attribute access `config.runner.max_batch_size` (tasks.py 148).
`RunnerConfig` (config.py 88-106) declares no `max_batch_size` field, so in
the source this lookup raises `AttributeError` on every call; the embedding
returns `none`, and the caller's `except Exception` handler turns it into the
error outcome. -/
def RunnerConfig.lookupMaxBatchSize (_ : RunnerConfig) : Option Int := none

/-- `f"{config.runner.name_prefix}-{job_id}"` with the constant
`name_prefix = "jit-runner"` (config.py 105, tasks.py 51). -/
def runnerNameFor (job_id : Nat) : String :=
  "jit-runner-" ++ toString job_id

/-! ## Reconciler: `_sync_running_state` (`app/tasks.py` 247-300) -/

/-- The observed state of one pod as the reconciler reads it:
`pod.metadata.name`, `pod.status.phase`, and `pod.metadata.labels.get("org")`
(`none` models both an absent and an empty — falsy — label value). -/
structure Pod where
  name : String
  phase : String
  orgLabel : Option String
deriving DecidableEq, Repr

/-- `pod.status.phase in ["Running", "Pending"]` (tasks.py 263). -/
def podIsActive (p : Pod) : Bool :=
  p.phase = "Running" || p.phase = "Pending"

/-- The loop of tasks.py 262-268 restricted to active pods. -/
def activePods (pods : List Pod) : List Pod :=
  pods.filter podIsActive

/-- `active_pod_names` (260, 264). -/
def activePodNames (pods : List Pod) : List String :=
  (activePods pods).map (·.name)

/-- `org_counts` (258, 265-267): per-org count of active pods whose `org`
label is present (truthy). -/
def orgCounts (pods : List Pod) : List (String × Int) :=
  (activePods pods).foldl
    (fun m p =>
      match p.orgLabel with
      | some o => aset m o ((aget m o).getD 0 + 1)
      | none => m)
    []

/-- `total_count` (259, 267): incremented only inside the `if org_name:`
branch, i.e. only for active pods carrying an org label. -/
def totalCount (pods : List Pod) : Int :=
  ((activePods pods).filter (fun p => p.orgLabel.isSome)).length

/-- `all_orgs` (279-284): the set of orgs counted from active pods united with
the orgs of the stored runner records.  Python iterates the set in an
unspecified order; since the subsequent writes touch pairwise distinct keys,
the embedding fixes first-occurrence order and removes duplicates. -/
def dedupFirst : List String → List String
  | [] => []
  | a :: rest => a :: (dedupFirst rest).filter (fun b => b ≠ a)

def allOrgs (pods : List Pod) (runners : List (String × RunnerRecord)) : List String :=
  dedupFirst ((orgCounts pods).map (·.1) ++ runners.map (fun r => r.2.org_name))

/-- One iteration of the per-org sync loop (tasks.py 286-291): write the
observed active count when the stored counter disagrees. -/
def syncOrgStep (pods : List Pod) (st : Store) (org : String) : Store :=
  let k8s_count := (aget (orgCounts pods) org).getD 0
  let redis_count := get_org_running_count_sync st org
  if redis_count ≠ k8s_count then set_org_running_sync st org k8s_count else st

/-- One iteration of the stale-record loop (tasks.py 294-297): delete a
runner record whose pod is no longer active. -/
def syncCleanupStep (pods : List Pod) (st : Store) (r : String × RunnerRecord) : Store :=
  if r.1 ∈ activePodNames pods then st else delete_runner_info_sync st r.1

/-- `_sync_running_state` (247-300): sync the global counter (270-274), sync
each org counter over `all_orgs` (286-291), and delete runner records whose
pod is no longer active (293-297). -/
def sync_running_state (pods : List Pod) (s : Store) : Store :=
  let total_count := totalCount pods
  let current_total := get_total_running_sync s
  let s1 := if current_total ≠ total_count then set_total_running_sync s total_count else s
  let redis_runners := get_all_runners_sync s1
  let s2 := (allOrgs pods redis_runners).foldl (syncOrgStep pods) s1
  redis_runners.foldl (syncCleanupStep pods) s2

/-! ## Batch dispatcher: `process_pending_queues` (`app/tasks.py` 124-244) -/

/-- The dict returned by one dispatcher tick (status strings of tasks.py
152, 159, 207, 236-240, 244). -/
inductive TickStatus where
  | error
  | skippedTotalLimit
  | noPendingJobs
  | noAvailableSlots
  | processed (created remaining : Nat)
deriving DecidableEq, Repr

/-- The selection loop of tasks.py 172-203, translated verbatim: walk the
peeked entries in order, stop once `available_slots` jobs are selected,
memoise per-org running counts and effective limits on first encounter, skip
(without stopping) an entry whose org is at its limit, otherwise select it. -/
def select_jobs (s : Store) (max_per_org : Int) (available_slots : Int) :
    List (String × Nat × PendingJob) → List PendingJob →
    List (String × Int) → List (String × Int) → List (String × Nat) →
    List PendingJob
  | [], selected, _, _, _ => selected
  | (org, _, job) :: rest, selected, runCounts, limits, selCounts =>
    if (selected.length : Int) ≥ available_slots then selected
    else
      let fresh := (aget runCounts org).isNone
      let runCounts' := if fresh then aset runCounts org (get_org_running_count_sync s org) else runCounts
      let limits' := if fresh then aset limits org (get_effective_org_limit_sync s max_per_org org) else limits
      let selCounts' := if fresh then aset selCounts org 0 else selCounts
      let current_org_total := (aget runCounts' org).getD 0 + ((aget selCounts' org).getD 0 : Int)
      let org_limit := (aget limits' org).getD 0
      if current_org_total ≥ org_limit then
        select_jobs s max_per_org available_slots rest selected runCounts' limits' selCounts'
      else
        select_jobs s max_per_org available_slots rest (selected ++ [job])
          runCounts' limits' (aset selCounts' org ((aget selCounts' org).getD 0 + 1))

/-- tasks.py 145-240, the part of the tick after the state sync, with
`max_batch_size` already read.  Returns the tick status, the updated store,
and the list of jobs handed to `create_runner_for_job.delay`. -/
def process_pending_queues_core (cfg : RunnerConfig) (max_batch_size : Int)
    (s : Store) : TickStatus × Store × List PendingJob :=
  let total_running := get_total_running_sync s
  if total_running ≥ cfg.max_total then (.skippedTotalLimit, s, [])
  else
    let all_pending := peek_all_pending_jobs_sync s
    if all_pending = [] then (.noPendingJobs, s, [])
    else
      let available_slots := min (cfg.max_total - total_running) max_batch_size
      let jobs_to_process := select_jobs s cfg.max_per_org available_slots all_pending [] [] [] []
      if jobs_to_process = [] then (.noAvailableSlots, s, [])
      else
        let s' := (remove_pending_jobs_by_job_ids_sync s jobs_to_process).2
        (.processed jobs_to_process.length (all_pending.length - jobs_to_process.length),
         s', jobs_to_process)

/-- `process_pending_queues` (124-244): run `_sync_running_state`, read the
counters and the configured limits, and dispatch.  Reading
`config.runner.max_batch_size` (148) raises `AttributeError` because the
field does not exist (see `RunnerConfig.lookupMaxBatchSize`); the exception
reaches the handler of 242-244, which returns the error status with no
further store access. -/
def process_pending_queues (cfg : RunnerConfig) (pods : List Pod) (s : Store) :
    TickStatus × Store × List PendingJob :=
  let s1 := sync_running_state pods s
  let _total_running := get_total_running_sync s1
  let _max_total := cfg.max_total
  match cfg.lookupMaxBatchSize with
  | none => (.error, s1, [])
  | some max_batch_size => process_pending_queues_core cfg max_batch_size s1

/-! ## Dispatch worker: `create_runner_for_job` (`app/tasks.py` 26-117) -/

/-- The outcome of one execution of the task: the success dict (100-105), a
`self.retry(...)` raise (68, 83) while retries remain, or the
max-retries-exceeded dict (107-114). -/
inductive WorkerOutcome where
  | created (runner_name org : String) (job_id : Nat)
  | retryScheduled
  | failedMaxRetries
deriving DecidableEq, Repr

def WorkerOutcome.isCreated : WorkerOutcome → Bool
  | .created _ _ _ => true
  | _ => false

/-- `self.retry(exc=e)` (tasks.py 68, 83): Celery raises `Retry` while
`self.request.retries < max_retries`, else `MaxRetriesExceededError`, which
the handler of 107-114 converts into the failed outcome. -/
def celeryRetry (retriesExhausted : Bool) : WorkerOutcome :=
  if retriesExhausted then .failedMaxRetries else .retryScheduled

/-- `create_runner_for_job` (26-117), one execution.  `jitOk` is whether
`github_client.create_jit_runner_config` (60-65) returned; `podResult` is the
result of `k8s_client.create_runner_pod`, which re-raises **every**
`ApiException` — including status 409 — unchanged (k8s_client.py 160-171), so
the task sees the HTTP status only inside a caught exception and always calls
`self.retry`.  Only after a successful pod creation does the task increment
the two counters (86-87) and save the runner record (90-96). -/
def create_runner_for_job (jitOk : Bool) (podResult : Except Nat Unit)
    (retriesExhausted : Bool) (org : String) (job_id run_id : Nat)
    (repo_full_name : String) (s : Store) : WorkerOutcome × Store :=
  let runner_name := runnerNameFor job_id
  if ¬ jitOk then (celeryRetry retriesExhausted, s)
  else
    match podResult with
    | .error _status => (celeryRetry retriesExhausted, s)
    | .ok _ =>
      let s1 := (increment_org_running_sync s org).2
      let s2 := (increment_total_running_sync s1).2
      let s3 := save_runner_info_sync s2 runner_name org job_id run_id repo_full_name
      (.created runner_name org job_id, s3)

/-! ## Admission: `handle_webhook` (`app/webhook_handler.py` 56-189)

The embedding starts after signature verification, the `workflow_job` event
filter, and payload parsing (69-91), which are HTTP-level concerns; it covers
the organization extraction (93-105) onward. -/

/-- `payload.organization` when the dict is present and truthy (non-empty);
`login` may still be absent. -/
structure OrgObject where
  login : Option String
deriving DecidableEq, Repr

/-- The fields of `payload.repository` the handler reads: `full_name` and
`owner.type` / `owner.login` (99-101). -/
structure RepoObject where
  full_name : String
  ownerType : String
  ownerLogin : Option String
deriving DecidableEq, Repr

/-- The parsed `workflow_job` payload fields the handler reads.
`organization = none` models both an absent and an empty (falsy) dict. -/
structure WebhookEvent where
  action : String
  job_id : Nat
  run_id : Nat
  job_name : String
  labels : List String
  organization : Option OrgObject
  repository : RepoObject
deriving DecidableEq, Repr

/-- webhook_handler.py 93-101: `organization.login` when the organization
dict is truthy (even if `login` is then absent, the repository fallback is
NOT tried); otherwise `repository.owner.login` when `owner.type` is
`"Organization"`. -/
def extract_org_name (p : WebhookEvent) : Option String :=
  match p.organization with
  | some o => o.login
  | none =>
    if p.repository.ownerType = "Organization" then p.repository.ownerLogin
    else none

/-- The JSON responses of webhook_handler.py 103-189. -/
inductive WebhookResult where
  | ignoredNoOrganization
  | ignoredLabelMismatch
  | queuedAccepted (org : String) (job_id : Nat)
  | acknowledgedInProgress (org : String) (job_id : Nat)
  | acknowledgedCompleted (org : String) (job_id : Nat)
  | ignoredAction (action : String)
deriving DecidableEq, Repr

/-- `any(label in labels for label in runner_labels)` (121): the event labels
intersect the configured runner labels (any-of). -/
def labelsMatch (runner_labels event_labels : List String) : Bool :=
  runner_labels.any (fun l => l ∈ event_labels)

/-- `handle_webhook` (56-189) from the organization extraction onward: the
org check (103-105) runs BEFORE the label check (119-123); a `queued` action
then enqueues the pending job (126-148). -/
def handle_webhook (runner_labels : List String) (now : Nat)
    (p : WebhookEvent) (s : Store) : WebhookResult × Store :=
  match extract_org_name p with
  | none => (.ignoredNoOrganization, s)
  | some org =>
    if ¬ labelsMatch runner_labels p.labels then (.ignoredLabelMismatch, s)
    else if p.action = "queued" then
      (.queuedAccepted org p.job_id,
       add_pending_job_sync s org p.job_id p.run_id p.job_name
         p.repository.full_name p.labels now)
    else if p.action = "in_progress" then (.acknowledgedInProgress org p.job_id, s)
    else if p.action = "completed" then (.acknowledgedCompleted org p.job_id, s)
    else (.ignoredAction p.action, s)

/-! ## Tenant-cap manager (`app/org_limits.py`) and admin router
(`app/admin_router.py`) -/

/-- The value-validation loop of `OrgLimitsManager.load_from_file`
(org_limits.py 61-67): keep an entry iff `isinstance(limit, int) and
limit > 0` — there is NO upper bound here.  The input is the parsed
`org_limits` YAML mapping restricted to integer values (non-integer values
are dropped by the `isinstance` check and not modelled); a missing or empty
file yields `[]` (47-57). -/
def load_from_file_validate (org_limits : List (String × Int)) : List (String × Int) :=
  org_limits.filter (fun p => 0 < p.2)

/-- `OrgLimitsManager.initialize_from_file_sync` (org_limits.py 109-137),
identical in effect to the async `initialize_from_file` (79-107): skip with 0
when the store's cap hash is non-empty, otherwise bulk-write the validated
file limits and report how many. -/
def initialize_from_file_sync (fileLimits : List (String × Int)) (s : Store) :
    Nat × Store :=
  if get_all_org_limits_sync s ≠ [] then (0, s)
  else
    let limits := load_from_file_validate fileLimits
    if limits = [] then (0, s)
    else (limits.length, set_org_limits_bulk_sync s limits)

/-- `OrgLimitRequest` (admin_router.py 53-55): pydantic
`Field(..., gt=0, le=1000)`; a request parses iff `0 < limit ≤ 1000`. -/
def org_limit_request_valid (limit : Int) : Bool :=
  0 < limit && limit ≤ 1000

/-- `PUT /org-limits/{org}` (admin_router.py 138-171): the body only reaches
the handler when `OrgLimitRequest` validated, and the handler writes the
limit unchanged. -/
def set_org_limit_endpoint (s : Store) (org : String) (limit : Int) : Option Store :=
  if org_limit_request_valid limit then some (set_org_max_limit_sync s org limit)
  else none

/-- The validation loop of `PUT /org-limits` bulk (admin_router.py 241-247):
keep an entry iff `isinstance(limit, int) and 0 < limit <= 1000`. -/
def bulk_validate (limits : List (String × Int)) : List (String × Int) :=
  limits.filter (fun p => 0 < p.2 && p.2 ≤ 1000)

/-- `PUT /org-limits` bulk (admin_router.py 228-269): 400 (`none`) when no
entry validates, otherwise bulk-write the validated entries. -/
def set_org_limits_bulk_endpoint (s : Store) (limits : List (String × Int)) :
    Option (Nat × Store) :=
  let validated := bulk_validate limits
  if validated = [] then none
  else some (validated.length, set_org_limits_bulk_sync s validated)

/-- `POST /org-limits/reload?force=true` (admin_router.py 297-311): load and
validate the file and bulk-write it regardless of the current hash
contents. -/
def reload_org_limits_force (fileLimits : List (String × Int)) (s : Store) :
    Nat × Store :=
  let limits := load_from_file_validate fileLimits
  if limits ≠ [] then (limits.length, set_org_limits_bulk_sync s limits)
  else (0, s)

/-! ## Counting helpers and spec-side definitions used in the claims -/

/-- The number of jobs of tenant `org` in a selection. -/
def countOrgJobs (jobs : List PendingJob) (org : String) : Nat :=
  jobs.countP (fun j => j.org_name = org)

/-- Modelled from the spec (§4.2 step 2): `total_active = |active_set|`, the
number of observed pods whose phase is Pending or Running, regardless of any
label.  Used to compare the reconciler against the spec's claimed invariant
`GlobalRunning = |active pods|`. -/
def specActivePodCount (pods : List Pod) : Nat :=
  (pods.filter (fun p => p.phase = "Running" || p.phase = "Pending")).length

/-- The number of observed active pods that carry the tenant label `org` —
the quantity the reconciler actually writes per tenant. -/
def specTenantActiveCount (pods : List Pod) (org : String) : Nat :=
  (pods.filter (fun p =>
    (p.phase = "Running" || p.phase = "Pending") && p.orgLabel = some org)).length

/-- The number of observed active pods carrying any tenant label — the
quantity the reconciler actually writes as the global counter. -/
def specLabeledActiveCount (pods : List Pod) : Nat :=
  (pods.filter (fun p =>
    (p.phase = "Running" || p.phase = "Pending") && p.orgLabel.isSome)).length

/-! ## Concrete scenario fixtures (from §8 of the spec) -/

/-- A job of tenant `A` with id, run id and timestamp `i` (scenario S3). -/
def s3Job (i : Nat) : PendingJob :=
  ⟨i, i, "a", "A/r", ["code-linux"], "A", some i⟩

/-- The single job of tenant `B` in scenario S3 (id 100, latest timestamp). -/
def s3JobB : PendingJob :=
  ⟨100, 100, "b", "B/r", ["code-linux"], "B", some 6⟩

/-- The S3 store: cap override `A → 2`, five queued jobs of `A` and one later
job of `B`, nothing running. -/
def s3Store : Store :=
  ⟨[], none, [("A", 2)],
   [("A", [s3Job 1, s3Job 2, s3Job 3, s3Job 4, s3Job 5]), ("B", [s3JobB])], []⟩

/-- The default configuration of scenario S1-S4: `max_per_org = 10`,
`max_total = 200`. -/
def s3Config : RunnerConfig :=
  ⟨10, 200, ["code-linux"], "default"⟩

/-- A store in which tenant `A` runs 5 pods while its cap override is 2
(the cap was lowered below the current running count), with one queued job
of `A` and a later one of `B`. -/
def overCapStore : Store :=
  ⟨[("A", 5)], some 5, [("A", 2)],
   [("A", [⟨1, 1, "a", "A/r", ["code-linux"], "A", some 1⟩]),
    ("B", [⟨100, 100, "b", "B/r", ["code-linux"], "B", some 2⟩])], []⟩

/-- A single queued job of tenant `A` (fixture for the queue round-trip). -/
def c6Job : PendingJob :=
  ⟨1, 1, "a", "A/r", ["code-linux"], "A", some 1⟩

/-- A store whose only pending entry is `c6Job`. -/
def c6Store : Store :=
  ⟨[], none, [], [("A", [c6Job])], []⟩

/-! # Theorems

First the basic lemmas about the store primitives, then one theorem (plus
counterexample/witness where required) per claim. -/

/-! ## Association lists -/

@[simp] theorem aget_nil (k : String) : aget ([] : List (String × α)) k = none := rfl

@[simp] theorem aget_cons (k k' : String) (v : α) (m : List (String × α)) :
    aget ((k', v) :: m) k = if k' = k then some v else aget m k := by
  by_cases h : k' = k <;> simp [aget, List.find?, h]

@[simp] theorem aget_aset_self (m : List (String × α)) (k : String) (v : α) :
    aget (aset m k v) k = some v := by
  induction m with
  | nil => simp [aset]
  | cons p rest ih =>
    obtain ⟨k', v'⟩ := p
    by_cases h : k' = k <;> simp [aset, h, ih]

@[simp] theorem aget_aset_ne (m : List (String × α)) (k k' : String) (v : α)
    (h : k ≠ k') : aget (aset m k v) k' = aget m k' := by
  induction m with
  | nil => simp [aset, h]
  | cons p rest ih =>
    obtain ⟨k₀, v₀⟩ := p
    by_cases h₀ : k₀ = k
    · subst h₀; simp [aset, h]
    · simp [aset, h₀, ih]

theorem mem_aset_self (m : List (String × α)) (k : String) (v : α) :
    (k, v) ∈ aset m k v := by
  induction m with
  | nil => simp [aset]
  | cons p rest ih =>
    obtain ⟨k₀, v₀⟩ := p
    by_cases h : k₀ = k <;> simp [aset, h, ih]

theorem mem_aset_elim {m : List (String × α)} {k : String} {v : α}
    (hnd : (m.map Prod.fst).Nodup) {p : String × α} (hp : p ∈ aset m k v) :
    p = (k, v) ∨ (p ∈ m ∧ p.1 ≠ k) := by
  induction m with
  | nil =>
    left
    simpa [aset] using hp
  | cons q rest ih =>
    obtain ⟨k₀, v₀⟩ := q
    simp only [List.map_cons, List.nodup_cons] at hnd
    by_cases h : k₀ = k
    · subst h
      rw [show aset ((k₀, v₀) :: rest) k₀ v = (k₀, v) :: rest from by simp [aset]] at hp
      rcases List.mem_cons.mp hp with h1 | h1
      · exact Or.inl h1
      · refine Or.inr ⟨List.mem_cons_of_mem _ h1, fun hk => ?_⟩
        exact hnd.1 (hk ▸ List.mem_map_of_mem Prod.fst h1)
    · rw [show aset ((k₀, v₀) :: rest) k v = (k₀, v₀) :: aset rest k v from by
        simp [aset, h]] at hp
      rcases List.mem_cons.mp hp with h1 | h1
      · subst h1
        exact Or.inr ⟨List.mem_cons_self _ _, by simpa using h⟩
      · rcases ih hnd.2 h1 with h2 | h2
        · exact Or.inl h2
        · exact Or.inr ⟨List.mem_cons_of_mem _ h2.1, h2.2⟩

theorem aset_eq_append_of_aget_none {m : List (String × α)} {k : String}
    (h : aget m k = none) (v : α) : aset m k v = m ++ [(k, v)] := by
  induction m with
  | nil => simp [aset]
  | cons p rest ih =>
    obtain ⟨k₀, v₀⟩ := p
    by_cases hk : k₀ = k
    · simp [hk] at h
    · simp only [aget_cons, if_neg hk] at h
      simp [aset, hk, ih h]

theorem aget_append_none {m m' : List (String × α)} {k : String}
    (h : aget m k = none) (h' : aget m' k = none) : aget (m ++ m') k = none := by
  induction m with
  | nil => simpa using h'
  | cons p rest ih =>
    obtain ⟨k₀, v₀⟩ := p
    by_cases hk : k₀ = k
    · simp [hk] at h
    · simp only [aget_cons, if_neg hk] at h
      simpa [hk] using ih h

/-- A left fold of writes does not touch keys outside the written list. -/
theorem aget_foldl_aset_not_mem {l : List (String × α)} {k : String}
    (h : k ∉ l.map Prod.fst) (base : List (String × α)) :
    aget (l.foldl (fun m p => aset m p.1 p.2) base) k = aget base k := by
  induction l generalizing base with
  | nil => rfl
  | cons p rest ih =>
    simp only [List.map_cons, List.mem_cons] at h
    push_neg at h
    simp only [List.foldl_cons]
    rw [ih h.2, aget_aset_ne _ _ _ _ (fun hk => h.1 hk.symm)]

/-- A left fold of writes with pairwise-distinct keys makes every written
pair retrievable. -/
theorem aget_foldl_aset_mem {l : List (String × α)}
    (hnd : (l.map Prod.fst).Nodup) {k : String} {v : α} (hkv : (k, v) ∈ l)
    (base : List (String × α)) :
    aget (l.foldl (fun m p => aset m p.1 p.2) base) k = some v := by
  induction l generalizing base with
  | nil => simp at hkv
  | cons p rest ih =>
    obtain ⟨k₀, v₀⟩ := p
    simp only [List.map_cons, List.nodup_cons] at hnd
    simp only [List.foldl_cons]
    rcases List.mem_cons.mp hkv with h | h
    · cases h
      rw [aget_foldl_aset_not_mem hnd.1, aget_aset_self]
    · exact ih hnd.2 h _

/-- With pairwise-distinct keys, folding writes over an empty base rebuilds
the list itself. -/
theorem foldl_aset_nil_eq {l : List (String × α)} (hnd : (l.map Prod.fst).Nodup) :
    l.foldl (fun m p => aset m p.1 p.2) [] = l := by
  suffices h : ∀ base : List (String × α),
      (∀ p ∈ l, aget base p.1 = none) →
      l.foldl (fun m p => aset m p.1 p.2) base = base ++ l by
    simpa using h [] (by simp)
  induction l with
  | nil => simp
  | cons p rest ih =>
    intro base hfresh
    obtain ⟨k₀, v₀⟩ := p
    simp only [List.map_cons, List.nodup_cons] at hnd
    simp only [List.foldl_cons]
    have hb : aget base k₀ = none := hfresh (k₀, v₀) (by simp)
    rw [aset_eq_append_of_aget_none hb v₀]
    have hstep : ∀ q ∈ rest, aget (base ++ [(k₀, v₀)]) q.1 = none := by
      intro q hq
      refine aget_append_none (hfresh q (List.mem_cons_of_mem _ hq)) ?_
      have hne : q.1 ≠ k₀ := fun h => hnd.1 (h ▸ List.mem_map_of_mem Prod.fst hq)
      simp [hne.symm]
    rw [ih hnd.2 (base ++ [(k₀, v₀)]) hstep]
    simp

/-! ## The stable sort of `peek_all_pending_jobs_sync` -/

theorem insertByTs_perm (a : String × Nat × PendingJob)
    (l : List (String × Nat × PendingJob)) : (insertByTs a l).Perm (a :: l) := by
  induction l with
  | nil => exact List.Perm.refl _
  | cons b bs ih =>
    by_cases h : tsOf a < tsOf b
    · simp [insertByTs, h]
    · simp only [insertByTs, if_neg h]
      exact (ih.cons b).trans (List.Perm.swap a b bs)

theorem sortByTs_perm (l : List (String × Nat × PendingJob)) :
    (sortByTs l).Perm l := by
  suffices h : ∀ acc : List (String × Nat × PendingJob),
      (l.foldl (fun acc a => insertByTs a acc) acc).Perm (acc ++ l) by
    simpa [sortByTs] using h []
  induction l with
  | nil => simp
  | cons a rest ih =>
    intro acc
    simp only [List.foldl_cons]
    refine (ih (insertByTs a acc)).trans ?_
    refine (List.Perm.append_right rest (insertByTs_perm a acc)).trans ?_
    simpa using List.perm_middle.symm

theorem mem_sortByTs {e : String × Nat × PendingJob}
    {l : List (String × Nat × PendingJob)} : e ∈ sortByTs l ↔ e ∈ l :=
  (sortByTs_perm l).mem_iff

theorem mem_peek_iff {s : Store} {e : String × Nat × PendingJob} :
    e ∈ peek_all_pending_jobs_sync s ↔
      ∃ p ∈ s.pending, ∃ q ∈ p.2.enum, e = (p.1, q.1, withDefaultTs q.2) := by
  unfold peek_all_pending_jobs_sync
  rw [mem_sortByTs]
  simp only [List.mem_flatMap, List.mem_map]
  constructor
  · rintro ⟨p, hp, q, hq, rfl⟩
    exact ⟨p, hp, q, hq, rfl⟩
  · rintro ⟨p, hp, q, hq, rfl⟩
    exact ⟨p, hp, q, hq, rfl⟩

/-! ## `dedupFirst` -/

theorem mem_dedupFirst {l : List String} {a : String} :
    a ∈ dedupFirst l ↔ a ∈ l := by
  induction l with
  | nil => simp [dedupFirst]
  | cons b rest ih =>
    simp only [dedupFirst, List.mem_cons, List.mem_filter]
    constructor
    · rintro (rfl | ⟨h, _⟩)
      · exact Or.inl rfl
      · exact Or.inr (ih.mp h)
    · rintro (rfl | h)
      · exact Or.inl rfl
      · by_cases hab : a = b
        · exact Or.inl hab
        · exact Or.inr ⟨ih.mpr h, by simpa using hab⟩

theorem dedupFirst_nodup (l : List String) : (dedupFirst l).Nodup := by
  induction l with
  | nil => simp [dedupFirst]
  | cons b rest ih =>
    simp only [dedupFirst, List.nodup_cons]
    refine ⟨fun hb => ?_, ih.filter _⟩
    simp only [List.mem_filter, decide_eq_true_eq] at hb
    exact hb.2 rfl

/-! ## C7 — decrement floors at zero -/

/-- C7: decrementing the per-tenant or the global running counter returns
`max (stored − 1) 0` and leaves exactly that value in the store, so the
caller never receives a negative value and the store is never left negative
by the decrement: when the decrement would go below zero, the key is reset to
0 and 0 is returned. -/
theorem C7_decrement_floors_at_zero (s : Store) (org : String) :
    (decrement_org_running_sync s org).1
        = max ((aget s.orgRunning org).getD 0 - 1) 0 ∧
    (aget (decrement_org_running_sync s org).2.orgRunning org).getD 0
        = max ((aget s.orgRunning org).getD 0 - 1) 0 ∧
    (decrement_total_running_sync s).1
        = max (s.totalRunning.getD 0 - 1) 0 ∧
    (decrement_total_running_sync s).2.totalRunning.getD 0
        = max (s.totalRunning.getD 0 - 1) 0 := by
  unfold decrement_org_running_sync decrement_total_running_sync
  by_cases h : (aget s.orgRunning org).getD 0 - 1 < 0 <;>
    by_cases h' : s.totalRunning.getD 0 - 1 < 0 <;>
      simp only [h, h', if_true, if_false, reduceIte, aget_aset_self, Option.getD_some] <;>
        refine ⟨by omega, by simp [aget_aset_self]; omega, by omega, by omega⟩

/-! ## C1 — the dispatcher tick and `max_batch_size` -/

/-- C1 (code bug): `RunnerConfig` (config.py 88-106) declares no
`max_batch_size` field although `tests/test_config.py` (91, 109) asserts one
(default 10) and tasks.py 148 reads it, so `process_pending_queues` raises
`AttributeError` on every tick and the handler of tasks.py 242-244 returns
the error status.  Concretely: two active pods of tenant `acme` are observed
and `max_total = 2`, so after the state sync `GlobalRunning = 2 ≥ max_total`
and the claim (with the spec and the tests) expects the `skipped:total_limit`
outcome — but the tick ends with the error status before reaching the
total-limit check. -/
theorem C1_tick_errors_without_batch_size_field :
    (process_pending_queues
        { max_per_org := 10, max_total := 2, labels := ["code-linux"], group := "default" }
        [{ name := "jit-runner-1", phase := "Running", orgLabel := some "acme" },
         { name := "jit-runner-2", phase := "Running", orgLabel := some "acme" }]
        Store.empty).1 = .error ∧
    (process_pending_queues
        { max_per_org := 10, max_total := 2, labels := ["code-linux"], group := "default" }
        [{ name := "jit-runner-1", phase := "Running", orgLabel := some "acme" },
         { name := "jit-runner-2", phase := "Running", orgLabel := some "acme" }]
        Store.empty).1 ≠ .skippedTotalLimit ∧
    (2 : Int) ≤ get_total_running_sync (sync_running_state
        [{ name := "jit-runner-1", phase := "Running", orgLabel := some "acme" },
         { name := "jit-runner-2", phase := "Running", orgLabel := some "acme" }]
        Store.empty) := by
  refine ⟨rfl, by decide, by decide⟩

/-! ## C4 — a 409 conflict during pod creation -/

/-- C4 counterexample: a dispatch execution in which pod creation fails with
status 409 and retries remain ends with a retry (and with retries exhausted,
with the failed outcome) — it is not treated as success, contradicting the
claim that the worker completes the dispatch on a 409. -/
theorem C4_counterexample :
    (create_runner_for_job true (.error 409) false "acme" 7 8 "acme/app"
        Store.empty).1 = .retryScheduled ∧
    ((create_runner_for_job true (.error 409) false "acme" 7 8 "acme/app"
        Store.empty).1).isCreated = false ∧
    (create_runner_for_job true (.error 409) true "acme" 7 8 "acme/app"
        Store.empty).1 = .failedMaxRetries := by
  refine ⟨rfl, rfl, rfl⟩

/-- C4 (amended): `k8s_client.create_runner_pod` re-raises every
`ApiException` unchanged (k8s_client.py 160-171), with no 409 special case,
and the task's handler (tasks.py 81-83) calls `self.retry` on any pod-creation
exception.  Hence an execution whose pod creation fails with a 409
already-exists conflict is retried like any other API error (and gives up
with the failed outcome once retries are exhausted); it performs no store
writes and is never treated as a completed dispatch. -/
theorem C4_conflict_is_retried (retriesExhausted : Bool) (org : String)
    (job_id run_id : Nat) (repo : String) (s : Store) :
    create_runner_for_job true (.error 409) retriesExhausted org job_id run_id repo s
      = (celeryRetry retriesExhausted, s) ∧
    celeryRetry false = .retryScheduled ∧
    celeryRetry true = .failedMaxRetries := by
  refine ⟨rfl, rfl, rfl⟩

/-! ## C5 — admission order of the label and tenant checks -/

/-- C5 counterexample: an event whose labels miss the configured set AND
whose tenant is undeterminable is rejected as `no_organization`, not as
`label_mismatch`: the tenant check (webhook_handler.py 93-105) runs before
the label check (119-123), contrary to the claim. -/
theorem C5_counterexample :
    (handle_webhook ["code-linux"] 0
        { action := "queued", job_id := 1, run_id := 2, job_name := "build",
          labels := ["gpu"], organization := none,
          repository := { full_name := "u/r", ownerType := "User",
                          ownerLogin := some "u" } }
        Store.empty).1 = .ignoredNoOrganization ∧
    (handle_webhook ["code-linux"] 0
        { action := "queued", job_id := 1, run_id := 2, job_name := "build",
          labels := ["gpu"], organization := none,
          repository := { full_name := "u/r", ownerType := "User",
                          ownerLogin := some "u" } }
        Store.empty).1 ≠ .ignoredLabelMismatch ∧
    labelsMatch ["code-linux"] ["gpu"] = false := by
  refine ⟨rfl, by decide, by decide⟩

/-- C5 (amended): the tenant check comes first: an event whose tenant cannot
be determined is rejected `no_organization` (even when its labels also
mismatch); when the tenant is determined and the labels do not intersect the
configured set, the event is rejected `label_mismatch`; when the tenant is
determined, the labels match and the action is `queued`, a `PendingJob` is
appended to the tenant's queue and the event is accepted as queued. -/
theorem C5_admission_checks (runner_labels : List String) (now : Nat)
    (p : WebhookEvent) (s : Store) :
    (extract_org_name p = none →
      handle_webhook runner_labels now p s = (.ignoredNoOrganization, s)) ∧
    (∀ org, extract_org_name p = some org →
      labelsMatch runner_labels p.labels = false →
      handle_webhook runner_labels now p s = (.ignoredLabelMismatch, s)) ∧
    (∀ org, extract_org_name p = some org →
      labelsMatch runner_labels p.labels = true →
      p.action = "queued" →
      handle_webhook runner_labels now p s =
        (.queuedAccepted org p.job_id,
         add_pending_job_sync s org p.job_id p.run_id p.job_name
           p.repository.full_name p.labels now)) := by
  refine ⟨fun h => ?_, fun org h hl => ?_, fun org h hl ha => ?_⟩
  · simp [handle_webhook, h]
  · simp [handle_webhook, h, hl]
  · simp [handle_webhook, h, hl, ha]

/-- C5 witness: the amended theorem applied to a concrete queued event of
tenant `acme` with matching label. -/
theorem C5_admission_checks_witness :
    extract_org_name
        { action := "queued", job_id := 11, run_id := 12, job_name := "build",
          labels := ["code-linux"], organization := some { login := some "acme" },
          repository := { full_name := "acme/app", ownerType := "Organization",
                          ownerLogin := some "acme" } } = some "acme" ∧
    (handle_webhook ["code-linux"] 5
        { action := "queued", job_id := 11, run_id := 12, job_name := "build",
          labels := ["code-linux"], organization := some { login := some "acme" },
          repository := { full_name := "acme/app", ownerType := "Organization",
                          ownerLogin := some "acme" } }
        Store.empty) =
      (.queuedAccepted "acme" 11,
       add_pending_job_sync Store.empty "acme" 11 12 "build" "acme/app"
         ["code-linux"] 5) :=
  ⟨rfl, (C5_admission_checks ["code-linux"] 5 _ Store.empty).2.2 "acme" rfl
    (by decide) rfl⟩

/-! ## C10 — failed dispatches leave the store unchanged -/

/-- C10: in `create_runner_for_job` the counter increments (tasks.py 86-87)
and the runner-record write (90-96) happen only after pod creation returned
successfully; any execution ending in a retry or in the max-retries failed
outcome performs no store writes, and a successful one performs exactly the
two increments and the record save. -/
theorem C10_no_writes_on_failure (jitOk : Bool) (podResult : Except Nat Unit)
    (retriesExhausted : Bool) (org : String) (job_id run_id : Nat)
    (repo : String) (s : Store) :
    ((create_runner_for_job jitOk podResult retriesExhausted org job_id run_id
        repo s).1.isCreated = false →
      (create_runner_for_job jitOk podResult retriesExhausted org job_id run_id
        repo s).2 = s) ∧
    ((create_runner_for_job jitOk podResult retriesExhausted org job_id run_id
        repo s).1.isCreated = true →
      (create_runner_for_job jitOk podResult retriesExhausted org job_id run_id
        repo s).2 =
        save_runner_info_sync
          (increment_total_running_sync (increment_org_running_sync s org).2).2
          (runnerNameFor job_id) org job_id run_id repo) := by
  unfold create_runner_for_job
  cases jitOk <;> cases podResult <;> cases retriesExhausted <;>
    simp [celeryRetry, WorkerOutcome.isCreated]

/-- C10 witness: a concrete failing execution (pod creation fails with 500)
leaves the store untouched. -/
theorem C10_no_writes_on_failure_witness :
    (create_runner_for_job true (.error 500) false "acme" 3 4 "acme/app"
        Store.empty).1.isCreated = false ∧
    (create_runner_for_job true (.error 500) false "acme" 3 4 "acme/app"
        Store.empty).2 = Store.empty :=
  ⟨rfl, (C10_no_writes_on_failure true (.error 500) false "acme" 3 4 "acme/app"
      Store.empty).1 rfl⟩

/-! ## C8 — range of accepted cap overrides -/

/-- C8 counterexample: the declarative-file loader validates only
`isinstance(limit, int) and limit > 0` (org_limits.py 63-67) — no upper
bound — so a file entry `acme: 2000` is accepted and, on an empty store,
bulk-written into the `org_limits` hash even though 2000 > 1000. -/
theorem C8_counterexample :
    load_from_file_validate [("acme", 2000)] = [("acme", 2000)] ∧
    aget (initialize_from_file_sync [("acme", 2000)] Store.empty).2.orgLimits
        "acme" = some 2000 ∧
    ¬ ((2000 : Int) ≤ 1000) := by
  refine ⟨rfl, rfl, by decide⟩

/-- C8 (amended): the two admin write paths enforce the 1–1000 range — a
single update parses only when `0 < limit ≤ 1000`, and the bulk update keeps
exactly the entries with `0 < limit ≤ 1000` — but the declarative-file
loader (used at initialization and by the reload endpoint) only requires the
value to be a positive integer, with no upper bound. -/
theorem C8_cap_validation (limit : Int) (limits : List (String × Int)) :
    (org_limit_request_valid limit = true ↔ 1 ≤ limit ∧ limit ≤ 1000) ∧
    (∀ p ∈ bulk_validate limits, 1 ≤ p.2 ∧ p.2 ≤ 1000) ∧
    (∀ p ∈ load_from_file_validate limits, 1 ≤ p.2) := by
  refine ⟨?_, ?_, ?_⟩
  · unfold org_limit_request_valid
    constructor
    · intro h
      have := of_decide_eq_true (Bool.and_elim_left h)
      have := of_decide_eq_true (Bool.and_elim_right h)
      omega
    · intro h
      have h1 : decide (0 < limit) = true := decide_eq_true (by omega)
      have h2 : decide (limit ≤ 1000) = true := decide_eq_true (by omega)
      simp [h1, h2]
  · intro p hp
    unfold bulk_validate at hp
    have := (List.mem_filter.mp hp).2
    have h1 := of_decide_eq_true (Bool.and_elim_left this)
    have h2 := of_decide_eq_true (Bool.and_elim_right this)
    omega
  · intro p hp
    unfold load_from_file_validate at hp
    have := of_decide_eq_true (List.mem_filter.mp hp).2
    omega

/-- C8 witness: the amended theorem applied at limit 25 and a two-entry bulk
request in which only the in-range entry survives validation. -/
theorem C8_cap_validation_witness :
    org_limit_request_valid 25 = true ∧
    ("a", (25 : Int)) ∈ bulk_validate [("a", 25), ("b", 2000)] ∧
    (1 ≤ (25 : Int) ∧ (25 : Int) ≤ 1000) :=
  ⟨by decide, by decide,
   (C8_cap_validation 25 [("a", 25), ("b", 2000)]).2.1 ("a", 25) (by decide)⟩

/-! ## C9 — initialization from the declarative cap file -/

/-- C9: when the stored cap hash is non-empty, `initialize_from_file_sync`
returns 0 and leaves the whole store (in particular every existing cap
entry) unchanged; when the hash is empty, the validated file limits are
bulk-written and their number reported; the force reload bulk-writes the
validated file limits unconditionally (every validated file entry ends up in
the hash, entries for tenants not in the file are untouched).  The file's
keys are assumed pairwise distinct, as YAML mapping keys are. -/
theorem C9_initialize_from_file (fileLimits : List (String × Int)) (s : Store)
    (hkeys : (fileLimits.map Prod.fst).Nodup) :
    (s.orgLimits ≠ [] → initialize_from_file_sync fileLimits s = (0, s)) ∧
    (s.orgLimits = [] →
      (initialize_from_file_sync fileLimits s).2.orgLimits
          = load_from_file_validate fileLimits ∧
      (initialize_from_file_sync fileLimits s).1
          = (load_from_file_validate fileLimits).length) ∧
    (∀ o v, (o, v) ∈ load_from_file_validate fileLimits →
      aget (reload_org_limits_force fileLimits s).2.orgLimits o = some v) ∧
    (∀ o, o ∉ (load_from_file_validate fileLimits).map Prod.fst →
      aget (reload_org_limits_force fileLimits s).2.orgLimits o
        = aget s.orgLimits o) := by
  have hvkeys : ((load_from_file_validate fileLimits).map Prod.fst).Nodup := by
    unfold load_from_file_validate
    exact hkeys.sublist ((List.filter_sublist _).map Prod.fst)
  refine ⟨fun h => ?_, fun h => ?_, fun o v hov => ?_, fun o ho => ?_⟩
  · unfold initialize_from_file_sync get_all_org_limits_sync
    simp [h]
  · unfold initialize_from_file_sync get_all_org_limits_sync
    by_cases hv : load_from_file_validate fileLimits = []
    · simp [h, hv]
    · simp only [h, ne_eq, not_true_eq_false, if_false, reduceIte, hv]
      unfold set_org_limits_bulk_sync
      simp [hv, h, foldl_aset_nil_eq hvkeys]
  · unfold reload_org_limits_force
    have hv : load_from_file_validate fileLimits ≠ [] := by
      intro hnil; rw [hnil] at hov; exact (List.not_mem_nil _ hov)
    simp only [hv, ne_eq, not_false_eq_true, if_true, reduceIte]
    unfold set_org_limits_bulk_sync
    simp only [hv, if_false, reduceIte]
    exact aget_foldl_aset_mem hvkeys hov s.orgLimits
  · unfold reload_org_limits_force
    by_cases hv : load_from_file_validate fileLimits = []
    · simp [hv]
    · simp only [hv, ne_eq, not_false_eq_true, if_true, reduceIte]
      unfold set_org_limits_bulk_sync
      simp only [hv, if_false, reduceIte]
      exact aget_foldl_aset_not_mem ho s.orgLimits

/-- C9 witness: a concrete non-empty store is left unchanged (0 loaded), and
force-reloading writes the file entry. -/
theorem C9_initialize_from_file_witness :
    (["acme"].Nodup ∧
      ({ Store.empty with orgLimits := [("acme", 5)] } : Store).orgLimits ≠ []) ∧
    initialize_from_file_sync [("acme", 7)]
        { Store.empty with orgLimits := [("acme", 5)] }
      = (0, { Store.empty with orgLimits := [("acme", 5)] }) :=
  ⟨⟨by decide, by decide⟩,
   (C9_initialize_from_file [("acme", 7)]
      { Store.empty with orgLimits := [("acme", 5)] } (by decide)).1 (by decide)⟩

/-! ## C2 — the reconciler counters -/

theorem orgCounts_foldl_getD (l : List Pod) (m : List (String × Int)) (org : String) :
    (aget (l.foldl (fun m p => match p.orgLabel with
        | some o => aset m o ((aget m o).getD 0 + 1)
        | none => m) m) org).getD 0
      = (aget m org).getD 0 + (l.countP (fun p => p.orgLabel = some org) : Int) := by
  induction l generalizing m with
  | nil => simp
  | cons p rest ih =>
    simp only [List.foldl_cons, List.countP_cons]
    cases hl : p.orgLabel with
    | none => rw [ih]; simp [hl]
    | some o =>
      by_cases ho : o = org
      · subst ho
        simp only [hl]
        rw [ih]
        simp only [aget_aset_self, Option.getD_some, hl]
        simp only [decide_eq_true_eq]
        simp
        ring
      · have hne : aget (aset m o ((aget m o).getD 0 + 1)) org = aget m org :=
          aget_aset_ne m o org _ ho
        simp only [hl]
        rw [ih, hne]
        simp [ho]

theorem orgCounts_getD (pods : List Pod) (org : String) :
    (aget (orgCounts pods) org).getD 0 = (specTenantActiveCount pods org : Int) := by
  unfold orgCounts
  rw [orgCounts_foldl_getD]
  simp only [aget_nil, Option.getD_none, zero_add, Nat.cast_inj]
  unfold specTenantActiveCount activePods podIsActive
  rw [List.countP_filter, List.countP_eq_length_filter]
  congr 1
  apply List.filter_congr
  intro p _
  rw [Bool.and_comm]

theorem totalCount_eq_spec (pods : List Pod) :
    totalCount pods = (specLabeledActiveCount pods : Int) := by
  unfold totalCount specLabeledActiveCount activePods podIsActive
  norm_cast
  rw [List.filter_filter]
  congr 1
  apply List.filter_congr
  intro p _
  rw [Bool.and_comm]

theorem syncOrgStep_totalRunning (pods : List Pod) (st : Store) (org : String) :
    (syncOrgStep pods st org).totalRunning = st.totalRunning := by
  unfold syncOrgStep set_org_running_sync
  by_cases h : get_org_running_count_sync st org = (aget (orgCounts pods) org).getD 0 <;>
    simp [h]

theorem syncOrgStep_runners (pods : List Pod) (st : Store) (org : String) :
    (syncOrgStep pods st org).runners = st.runners := by
  unfold syncOrgStep set_org_running_sync
  by_cases h : get_org_running_count_sync st org = (aget (orgCounts pods) org).getD 0 <;>
    simp [h]

theorem syncOrgFold_totalRunning (pods : List Pod) (orgs : List String) (st : Store) :
    (orgs.foldl (syncOrgStep pods) st).totalRunning = st.totalRunning := by
  induction orgs generalizing st with
  | nil => rfl
  | cons o rest ih => rw [List.foldl_cons, ih, syncOrgStep_totalRunning]

theorem syncCleanupStep_orgRunning (pods : List Pod) (st : Store)
    (r : String × RunnerRecord) :
    (syncCleanupStep pods st r).orgRunning = st.orgRunning := by
  unfold syncCleanupStep delete_runner_info_sync
  split <;> rfl

theorem syncCleanupStep_totalRunning (pods : List Pod) (st : Store)
    (r : String × RunnerRecord) :
    (syncCleanupStep pods st r).totalRunning = st.totalRunning := by
  unfold syncCleanupStep delete_runner_info_sync
  split <;> rfl

theorem syncCleanupFold_orgRunning (pods : List Pod)
    (rs : List (String × RunnerRecord)) (st : Store) :
    (rs.foldl (syncCleanupStep pods) st).orgRunning = st.orgRunning := by
  induction rs generalizing st with
  | nil => rfl
  | cons r rest ih => rw [List.foldl_cons, ih, syncCleanupStep_orgRunning]

theorem syncCleanupFold_totalRunning (pods : List Pod)
    (rs : List (String × RunnerRecord)) (st : Store) :
    (rs.foldl (syncCleanupStep pods) st).totalRunning = st.totalRunning := by
  induction rs generalizing st with
  | nil => rfl
  | cons r rest ih => rw [List.foldl_cons, ih, syncCleanupStep_totalRunning]

theorem syncOrgStep_get_self (pods : List Pod) (st : Store) (org : String) :
    get_org_running_count_sync (syncOrgStep pods st org) org
      = (aget (orgCounts pods) org).getD 0 := by
  unfold syncOrgStep set_org_running_sync get_org_running_count_sync
  by_cases h : (aget st.orgRunning org).getD 0 = (aget (orgCounts pods) org).getD 0 <;>
    simp [h, aget_aset_self]

theorem syncOrgStep_get_other (pods : List Pod) (st : Store) {org org' : String}
    (h : org' ≠ org) :
    get_org_running_count_sync (syncOrgStep pods st org) org'
      = get_org_running_count_sync st org' := by
  unfold syncOrgStep set_org_running_sync get_org_running_count_sync
  have hne : aget (aset st.orgRunning org ((aget (orgCounts pods) org).getD 0)) org'
      = aget st.orgRunning org' :=
    aget_aset_ne _ _ _ _ (fun hh => h hh.symm)
  by_cases hc : (aget st.orgRunning org).getD 0 = (aget (orgCounts pods) org).getD 0 <;>
    simp [hc, hne]

theorem syncOrgFold_get_not_mem (pods : List Pod) {orgs : List String}
    {org : String} (h : org ∉ orgs) (st : Store) :
    get_org_running_count_sync (orgs.foldl (syncOrgStep pods) st) org
      = get_org_running_count_sync st org := by
  induction orgs generalizing st with
  | nil => rfl
  | cons o rest ih =>
    simp only [List.mem_cons] at h
    push_neg at h
    rw [List.foldl_cons, ih h.2, syncOrgStep_get_other pods st h.1]

theorem syncOrgFold_get_mem (pods : List Pod) {orgs : List String}
    (hnd : orgs.Nodup) {org : String} (h : org ∈ orgs) (st : Store) :
    get_org_running_count_sync (orgs.foldl (syncOrgStep pods) st) org
      = (aget (orgCounts pods) org).getD 0 := by
  induction orgs generalizing st with
  | nil => simp at h
  | cons o rest ih =>
    simp only [List.nodup_cons] at hnd
    rw [List.foldl_cons]
    rcases List.mem_cons.mp h with rfl | h'
    · rw [syncOrgFold_get_not_mem pods hnd.1, syncOrgStep_get_self]
    · exact ih hnd.2 h' _

/-- C2 counterexample: one active pod without a tenant label is counted in
`active_pod_names` but not in `total_count` (tasks.py 262-268 increments the
total only inside the `if org_name:` branch), so after the reconciliation
pass `GlobalRunning` is 0 while the number of active pods is 1. -/
theorem C2_counterexample :
    get_total_running_sync (sync_running_state
        [{ name := "p1", phase := "Running", orgLabel := none }] Store.empty) = 0 ∧
    specActivePodCount [{ name := "p1", phase := "Running", orgLabel := none }] = 1 ∧
    get_total_running_sync (sync_running_state
        [{ name := "p1", phase := "Running", orgLabel := none }] Store.empty)
      ≠ (specActivePodCount
          [{ name := "p1", phase := "Running", orgLabel := none }] : Int) := by
  refine ⟨rfl, rfl, by decide⟩

/-- C2 (amended): after every reconciliation pass over an observed pod list,
`GlobalRunning` equals the number of active pods **that carry a tenant
label**, and for every tenant in the union of the tenants of active pods and
the tenants of the stored runner records, the tenant's running counter equals
the number of active pods labeled with that tenant. -/
theorem C2_reconciler_counters (pods : List Pod) (s : Store) :
    get_total_running_sync (sync_running_state pods s)
        = (specLabeledActiveCount pods : Int) ∧
    (∀ org, org ∈ allOrgs pods s.runners →
      get_org_running_count_sync (sync_running_state pods s) org
        = (specTenantActiveCount pods org : Int)) := by
  have hs1runners :
      (if get_total_running_sync s ≠ totalCount pods
        then set_total_running_sync s (totalCount pods) else s).runners = s.runners := by
    split <;> rfl
  constructor
  · show get_total_running_sync _ = _
    unfold sync_running_state
    rw [show ∀ st : Store, get_total_running_sync st = st.totalRunning.getD 0
      from fun _ => rfl]
    rw [syncCleanupFold_totalRunning, syncOrgFold_totalRunning]
    rw [← totalCount_eq_spec]
    by_cases h : get_total_running_sync s ≠ totalCount pods
    · rw [if_pos h]
      rfl
    · rw [if_neg h]
      push_neg at h
      exact h
  · intro org horg
    have hnd : (allOrgs pods s.runners).Nodup := by
      unfold allOrgs; exact dedupFirst_nodup _
    unfold sync_running_state
    rw [show ∀ st : Store, get_org_running_count_sync st org
        = (aget st.orgRunning org).getD 0 from fun _ => rfl]
    rw [syncCleanupFold_orgRunning]
    rw [show ∀ st : Store, (aget st.orgRunning org).getD 0
        = get_org_running_count_sync st org from fun _ => rfl]
    simp only [get_all_runners_sync, hs1runners]
    rw [syncOrgFold_get_mem pods hnd horg]
    exact orgCounts_getD pods org

/-- C2 witness: the amended theorem applied to one running pod of tenant
`acme` over the empty store. -/
theorem C2_reconciler_counters_witness :
    ("acme" ∈ allOrgs [(⟨"jit-runner-1", "Running", some "acme"⟩ : Pod)]
        Store.empty.runners) ∧
    get_org_running_count_sync (sync_running_state
        [(⟨"jit-runner-1", "Running", some "acme"⟩ : Pod)] Store.empty) "acme"
      = (specTenantActiveCount
          [(⟨"jit-runner-1", "Running", some "acme"⟩ : Pod)] "acme" : Int) :=
  ⟨by decide,
   (C2_reconciler_counters [(⟨"jit-runner-1", "Running", some "acme"⟩ : Pod)]
      Store.empty).2 "acme" (by decide)⟩

/-! ## C3 — per-tenant caps in the dispatcher selection -/

theorem countOrgJobs_append_single (l : List PendingJob) (j : PendingJob)
    (T : String) :
    countOrgJobs (l ++ [j]) T
      = countOrgJobs l T + if j.org_name = T then 1 else 0 := by
  unfold countOrgJobs
  rw [List.countP_append]
  by_cases h : j.org_name = T <;>
    simp [List.countP_cons, List.countP_nil, h]

theorem peek_entry_org {s : Store}
    (hwf : ∀ p ∈ s.pending, ∀ j ∈ p.2, j.org_name = p.1) :
    ∀ e ∈ peek_all_pending_jobs_sync s, e.2.2.org_name = e.1 := by
  intro e he
  rcases mem_peek_iff.mp he with ⟨p, hp, q, hq, rfl⟩
  have hmem : q.2 ∈ p.2 := by
    rw [List.mem_enum_iff_getElem?] at hq
    exact List.getElem?_mem hq
  have := hwf p hp q.2 hmem
  simpa [withDefaultTs] using this

/-- The central invariant of the selection loop (tasks.py 172-203): any
tenant that receives at least one job in the final selection ends the walk
with `running + selected ≤ effective limit`.  The accumulators carry the
loop's memoisation state: `runCounts`/`limits` hold only correct cached
values (and are populated together), `selCounts` counts the selection per
org, and an org absent from the cache has no selected job yet. -/
theorem select_jobs_cap_invariant (s : Store) (mpo slots : Int) :
    ∀ (entries : List (String × Nat × PendingJob))
      (selected : List PendingJob) (runCounts limits : List (String × Int))
      (selCounts : List (String × Nat)),
    (∀ e ∈ entries, e.2.2.org_name = e.1) →
    (∀ T, (aget runCounts T = none ∧ aget limits T = none) ∨
          (aget runCounts T = some (get_org_running_count_sync s T) ∧
           aget limits T = some (get_effective_org_limit_sync s mpo T))) →
    (∀ T, ((aget selCounts T).getD 0) = countOrgJobs selected T) →
    (∀ T, aget runCounts T = none → countOrgJobs selected T = 0) →
    (∀ T, 0 < countOrgJobs selected T →
      get_org_running_count_sync s T + (countOrgJobs selected T : Int)
        ≤ get_effective_org_limit_sync s mpo T) →
    ∀ T, 0 < countOrgJobs
        (select_jobs s mpo slots entries selected runCounts limits selCounts) T →
      get_org_running_count_sync s T
        + (countOrgJobs
            (select_jobs s mpo slots entries selected runCounts limits selCounts) T : Int)
        ≤ get_effective_org_limit_sync s mpo T := by
  intro entries
  induction entries with
  | nil =>
    intro selected rc lim sc _ _ _ _ h5 T hT
    rw [select_jobs] at hT ⊢
    exact h5 T hT
  | cons e rest ih =>
    obtain ⟨org, idx, job⟩ := e
    intro selected rc lim sc hent hmem h3 h4 h5 T hT
    have hjob : job.org_name = org := hent (org, idx, job) (List.mem_cons_self _ _)
    have hrest : ∀ e ∈ rest, e.2.2.org_name = e.1 :=
      fun e he => hent e (List.mem_cons_of_mem _ he)
    rw [select_jobs] at hT ⊢
    by_cases hstop : (selected.length : Int) ≥ slots
    · rw [if_pos hstop] at hT ⊢
      exact h5 T hT
    · rw [if_neg hstop] at hT ⊢
      cases hrcv : aget rc org with
      -- fresh org: the caches are populated with the store reads
      | none =>
        simp only [hrcv, Option.isNone_none, reduceIte] at hT ⊢
        set rc' := aset rc org (get_org_running_count_sync s org) with hrc'
        set lim' := aset lim org (get_effective_org_limit_sync s mpo org) with hlim'
        set sc' := aset sc org 0 with hsc'
        have hcount0 : countOrgJobs selected org = 0 := h4 org hrcv
        have hmem' : ∀ T, (aget rc' T = none ∧ aget lim' T = none) ∨
            (aget rc' T = some (get_org_running_count_sync s T) ∧
             aget lim' T = some (get_effective_org_limit_sync s mpo T)) := by
          intro T'
          by_cases hT' : org = T'
          · subst hT'
            exact Or.inr ⟨aget_aset_self .., aget_aset_self ..⟩
          · rw [hrc', hlim', aget_aset_ne _ _ _ _ hT', aget_aset_ne _ _ _ _ hT']
            exact hmem T'
        have h3' : ∀ T, ((aget sc' T).getD 0) = countOrgJobs selected T := by
          intro T'
          by_cases hT' : org = T'
          · subst hT'
            rw [hsc', aget_aset_self]
            simpa using hcount0.symm
          · rw [hsc', aget_aset_ne _ _ _ _ hT']
            exact h3 T'
        have h4' : ∀ T, aget rc' T = none → countOrgJobs selected T = 0 := by
          intro T' hn
          by_cases hT' : org = T'
          · subst hT'; rw [hrc', aget_aset_self] at hn; cases hn
          · rw [hrc', aget_aset_ne _ _ _ _ hT'] at hn
            exact h4 T' hn
        have hRorg : (aget rc' org).getD 0 = get_org_running_count_sync s org := by
          rw [hrc', aget_aset_self]; rfl
        have hCorg : (aget lim' org).getD 0 = get_effective_org_limit_sync s mpo org := by
          rw [hlim', aget_aset_self]; rfl
        have hSorg : (aget sc' org).getD 0 = countOrgJobs selected org := h3' org
        by_cases hguard :
            (aget rc' org).getD 0 + ((aget sc' org).getD 0 : Int) ≥ (aget lim' org).getD 0
        · rw [if_pos hguard] at hT ⊢
          exact ih selected rc' lim' sc' hrest hmem' h3' h4' h5 T hT
        · rw [if_neg hguard] at hT ⊢
          rw [hRorg, hCorg, hSorg] at hguard
          push_neg at hguard
          refine ih (selected ++ [job]) rc' lim'
            (aset sc' org ((aget sc' org).getD 0 + 1)) hrest hmem' ?_ ?_ ?_ T hT
          · intro T'
            by_cases hT' : org = T'
            · subst hT'
              rw [aget_aset_self, countOrgJobs_append_single, hjob]
              simp [hSorg]
            · rw [aget_aset_ne _ _ _ _ hT', countOrgJobs_append_single]
              have : ¬ job.org_name = T' := by rw [hjob]; exact hT'
              simp [this, h3' T']
          · intro T' hn
            by_cases hT' : org = T'
            · subst hT'; rw [hrc', aget_aset_self] at hn; cases hn
            · rw [hrc', aget_aset_ne _ _ _ _ hT'] at hn
              rw [countOrgJobs_append_single]
              have : ¬ job.org_name = T' := by rw [hjob]; exact hT'
              simp [this, h4 T' hn]
          · intro T' hpos
            by_cases hT' : org = T'
            · subst hT'
              rw [countOrgJobs_append_single, hjob] at hpos ⊢
              simp only [if_pos rfl] at hpos ⊢
              rw [hcount0] at hguard ⊢
              push_cast
              omega
            · rw [countOrgJobs_append_single] at hpos ⊢
              have : ¬ job.org_name = T' := by rw [hjob]; exact hT'
              simp only [this, if_false, reduceIte, Nat.add_zero] at hpos ⊢
              exact h5 T' hpos
      -- already-cached org: the caches are unchanged
      | some v =>
        simp only [hrcv, Option.isNone_some, Bool.false_eq_true, if_false,
          Option.getD_some] at hT ⊢
        have hv : aget rc org = some v := hrcv
        have hmemorg := hmem org
        rcases hmemorg with ⟨hn, _⟩ | ⟨hr, hc⟩
        · rw [hn] at hv; cases hv
        · have hvR : v = get_org_running_count_sync s org := by
            rw [hv] at hr
            exact Option.some.inj hr
          by_cases hguard : v + ((aget sc org).getD 0 : Int) ≥ (aget lim org).getD 0
          · rw [if_pos hguard] at hT ⊢
            exact ih selected rc lim sc hrest hmem h3 h4 h5 T hT
          · rw [if_neg hguard] at hT ⊢
            have hguard' : get_org_running_count_sync s org
                + (countOrgJobs selected org : Int)
                < get_effective_org_limit_sync s mpo org := by
              push_neg at hguard
              rw [hvR, h3 org, hc] at hguard
              simpa using hguard
            refine ih (selected ++ [job]) rc lim
              (aset sc org ((aget sc org).getD 0 + 1)) hrest hmem ?_ ?_ ?_ T hT
            · intro T'
              by_cases hT' : org = T'
              · subst hT'
                rw [aget_aset_self, countOrgJobs_append_single, hjob]
                simp [h3 org]
              · rw [aget_aset_ne _ _ _ _ hT', countOrgJobs_append_single]
                have : ¬ job.org_name = T' := by rw [hjob]; exact hT'
                simp [this, h3 T']
            · intro T' hn
              by_cases hT' : org = T'
              · subst hT'; rw [hn] at hv; cases hv
              · rw [countOrgJobs_append_single]
                have : ¬ job.org_name = T' := by rw [hjob]; exact hT'
                simp [this, h4 T' hn]
            · intro T' hpos
              by_cases hT' : org = T'
              · subst hT'
                rw [countOrgJobs_append_single, hjob] at hpos ⊢
                simp only [if_pos rfl] at hpos ⊢
                push_cast
                push_cast at hguard'
                omega
              · rw [countOrgJobs_append_single] at hpos ⊢
                have : ¬ job.org_name = T' := by rw [hjob]; exact hT'
                simp only [this, if_false, reduceIte, Nat.add_zero] at hpos ⊢
                exact h5 T' hpos

/-- The selection never exceeds `available_slots` (tasks.py 173-175): the
walk stops as soon as `available_slots` jobs are selected. -/
theorem select_jobs_length_le (s : Store) (mpo slots : Int) :
    ∀ (entries : List (String × Nat × PendingJob))
      (selected : List PendingJob) (rc lim : List (String × Int))
      (sc : List (String × Nat)),
    ((select_jobs s mpo slots entries selected rc lim sc).length : Int)
      ≤ max slots selected.length := by
  intro entries
  induction entries with
  | nil =>
    intro selected rc lim sc
    rw [select_jobs]
    exact le_max_right _ _
  | cons e rest ih =>
    obtain ⟨org, idx, job⟩ := e
    intro selected rc lim sc
    rw [select_jobs]
    by_cases hstop : (selected.length : Int) ≥ slots
    · rw [if_pos hstop]
      exact le_max_right _ _
    · rw [if_neg hstop]
      cases hrcv : aget rc org with
      | none =>
        simp only [hrcv, Option.isNone_none, reduceIte]
        split
        · exact ih selected _ _ _
        · refine le_trans (ih (selected ++ [job]) _ _ _) ?_
          have hlen : (((selected ++ [job]).length : Nat) : Int)
              = (selected.length : Int) + 1 := by
            simp
          rw [hlen, max_eq_left (by omega : (selected.length : Int) + 1 ≤ slots)]
          exact le_max_left _ _
      | some v =>
        simp only [hrcv, Option.isNone_some, Bool.false_eq_true, if_false,
          Option.getD_some]
        split
        · exact ih selected _ _ _
        · refine le_trans (ih (selected ++ [job]) _ _ _) ?_
          have hlen : (((selected ++ [job]).length : Nat) : Int)
              = (selected.length : Int) + 1 := by
            simp
          rw [hlen, max_eq_left (by omega : (selected.length : Int) + 1 ≤ slots)]
          exact le_max_left _ _

/-- C3 counterexample: tenant `A` has 5 running and cap 2 (the cap was
lowered below the current running count); the queue holds one job of `A` and
one of `B`.  The tick selects `B`'s job, so a selection S is produced, yet
for tenant `A`: `count(S, A) + RunningCount(A) = 0 + 5 > 2 = effective_cap(A)`,
refuting the claimed inequality. -/
theorem C3_counterexample :
    (process_pending_queues_core s3Config 10 overCapStore).2.2
      = [⟨100, 100, "b", "B/r", ["code-linux"], "B", some 2⟩] ∧
    ¬ ((countOrgJobs (process_pending_queues_core s3Config 10 overCapStore).2.2
          "A" : Int)
        + get_org_running_count_sync overCapStore "A"
        ≤ get_effective_org_limit_sync overCapStore 10 "A") := by
  refine ⟨by decide, by decide⟩

/-- C3 (amended): in every dispatcher tick, any tenant that receives at
least one job in the selection satisfies
`count(S, T) + RunningCount(T) ≤ effective_cap(T)` (so the selection never
pushes a tenant beyond its cap; a tenant whose running snapshot already
reaches the cap receives nothing); the selection size never exceeds
`max(min(max_total − GlobalRunning, max_batch_size), 0)`; and a peeked entry
of a capped tenant is skipped without ending the walk: in the spec's S3
scenario (cap `A → 2`, five jobs of `A`, one later job of `B`) the selection
is `[1, 2, 100]`. -/
theorem C3_per_tenant_caps (cfg : RunnerConfig) (max_batch_size : Int) (s : Store)
    (hwf : ∀ p ∈ s.pending, ∀ j ∈ p.2, j.org_name = p.1) :
    (∀ T, 0 < countOrgJobs (process_pending_queues_core cfg max_batch_size s).2.2 T →
      get_org_running_count_sync s T
        + (countOrgJobs (process_pending_queues_core cfg max_batch_size s).2.2 T : Int)
        ≤ get_effective_org_limit_sync s cfg.max_per_org T) ∧
    (((process_pending_queues_core cfg max_batch_size s).2.2.length : Int)
        ≤ max (min (cfg.max_total - get_total_running_sync s) max_batch_size) 0) ∧
    ((process_pending_queues_core s3Config 10 s3Store).2.2).map (fun j => j.job_id)
        = [1, 2, 100] := by
  refine ⟨?_, ?_, by decide⟩
  · intro T hT
    simp only [process_pending_queues_core] at hT ⊢
    by_cases h1 : get_total_running_sync s ≥ cfg.max_total
    · rw [if_pos h1] at hT
      simp [countOrgJobs] at hT
    · rw [if_neg h1] at hT ⊢
      by_cases h2 : peek_all_pending_jobs_sync s = []
      · rw [if_pos h2] at hT
        simp [countOrgJobs] at hT
      · rw [if_neg h2] at hT ⊢
        by_cases h3 : select_jobs s cfg.max_per_org
            (min (cfg.max_total - get_total_running_sync s) max_batch_size)
            (peek_all_pending_jobs_sync s) [] [] [] [] = []
        · rw [if_pos h3] at hT
          simp [countOrgJobs] at hT
        · rw [if_neg h3] at hT ⊢
          exact select_jobs_cap_invariant s cfg.max_per_org _
            (peek_all_pending_jobs_sync s) [] [] [] []
            (peek_entry_org hwf)
            (fun _ => Or.inl ⟨rfl, rfl⟩)
            (fun _ => rfl)
            (fun _ _ => rfl)
            (fun T' h => by simp [countOrgJobs] at h)
            T hT
  · simp only [process_pending_queues_core]
    by_cases h1 : get_total_running_sync s ≥ cfg.max_total
    · rw [if_pos h1]
      simp
    · rw [if_neg h1]
      by_cases h2 : peek_all_pending_jobs_sync s = []
      · rw [if_pos h2]
        simp
      · rw [if_neg h2]
        by_cases h3 : select_jobs s cfg.max_per_org
            (min (cfg.max_total - get_total_running_sync s) max_batch_size)
            (peek_all_pending_jobs_sync s) [] [] [] [] = []
        · rw [if_pos h3]
          simp
        · rw [if_neg h3]
          have h := select_jobs_length_le s cfg.max_per_org
            (min (cfg.max_total - get_total_running_sync s) max_batch_size)
            (peek_all_pending_jobs_sync s) [] [] [] []
          simpa using h

/-- C3 witness: the amended theorem applied to the S3 store: tenant `A`
received two jobs and `count(S, A) + RunningCount(A) = 2 + 0 ≤ 2`. -/
theorem C3_per_tenant_caps_witness :
    (∀ p ∈ s3Store.pending, ∀ j ∈ p.2, j.org_name = p.1) ∧
    0 < countOrgJobs (process_pending_queues_core s3Config 10 s3Store).2.2 "A" ∧
    (get_org_running_count_sync s3Store "A"
      + (countOrgJobs (process_pending_queues_core s3Config 10 s3Store).2.2
          "A" : Int)
      ≤ get_effective_org_limit_sync s3Store 10 "A") :=
  ⟨by decide, by decide,
   (C3_per_tenant_caps s3Config 10 s3Store (by decide)).1 "A" (by decide)⟩

/-! ## C6 — enqueue / peek / remove round trip -/

theorem enqueue_then_peek (s : Store) (org : String) (job_id run_id : Nat)
    (job_name repo : String) (labels : List String) (now : Nat) :
    ∃ e ∈ peek_all_pending_jobs_sync
        (add_pending_job_sync s org job_id run_id job_name repo labels now),
      e.2.2.job_id = job_id := by
  refine ⟨(org, ((aget s.pending org).getD []).length,
    withDefaultTs ⟨job_id, run_id, job_name, repo, labels, org, some now⟩), ?_, rfl⟩
  rw [mem_peek_iff]
  refine ⟨(org, (aget s.pending org).getD []
      ++ [⟨job_id, run_id, job_name, repo, labels, org, some now⟩]), ?_,
    (((aget s.pending org).getD []).length,
      ⟨job_id, run_id, job_name, repo, labels, org, some now⟩), ?_, rfl⟩
  · exact mem_aset_self _ _ _
  · rw [List.mem_enum_iff_getElem?]
    simp

/-- `remove_pending_jobs_by_job_ids_sync` with a single job rebuilds that
job's tenant queue, filtering its `job_id` out. -/
theorem remove_single (s : Store) (j : PendingJob) :
    (remove_pending_jobs_by_job_ids_sync s [j]).2
      = ⟨s.orgRunning, s.totalRunning, s.orgLimits,
         aset s.pending j.org_name
           (((aget s.pending j.org_name).getD []).filter
             (fun j' => decide (j'.job_id ∉ [j.job_id]))),
         s.runners⟩ := rfl

theorem remove_then_peek_not_mem (s : Store) (j : PendingJob)
    (hnd : (s.pending.map Prod.fst).Nodup)
    (huniq : ∀ p ∈ s.pending, p.1 ≠ j.org_name → ∀ j' ∈ p.2, j'.job_id ≠ j.job_id) :
    ∀ e ∈ peek_all_pending_jobs_sync (remove_pending_jobs_by_job_ids_sync s [j]).2,
      e.2.2.job_id ≠ j.job_id := by
  intro e he
  rw [remove_single] at he
  rcases mem_peek_iff.mp he with ⟨p, hp, q, hq, rfl⟩
  have hq' : q.2 ∈ p.2 := by
    rw [List.mem_enum_iff_getElem?] at hq
    exact List.getElem?_mem hq
  have hid : (withDefaultTs q.2).job_id = q.2.job_id := rfl
  rcases mem_aset_elim hnd hp with hp' | ⟨hpmem, hpne⟩
  · subst hp'
    have hkeep := (List.mem_filter.mp hq').2
    simp only [decide_eq_true_eq, List.mem_singleton] at hkeep
    simpa [hid] using hkeep
  · intro hcontra
    exact huniq p hpmem hpne q.2 hq' (by simpa [hid] using hcontra)

theorem remove_preserves_order (s : Store) (j : PendingJob) (T : String) :
    ((aget (remove_pending_jobs_by_job_ids_sync s [j]).2.pending T).getD
        []).Sublist ((aget s.pending T).getD []) := by
  rw [remove_single]
  show ((aget (aset s.pending j.org_name
      (((aget s.pending j.org_name).getD []).filter
        (fun j' => decide (j'.job_id ∉ [j.job_id])))) T).getD []).Sublist _
  by_cases h : j.org_name = T
  · subst h
    rw [aget_aset_self]
    exact List.filter_sublist _
  · rw [aget_aset_ne _ _ _ _ h]

/-- C6: after an enqueue, the peeked global view contains an entry with the
job's id; after `remove_pending([j])`, the peeked view contains no entry
with `j`'s id (assuming the association list is a well-formed key space and
`j`'s id does not occur in other tenants' queues, per data-model invariant
4); and every tenant's queue after the removal is a sublist of the queue
before it, so surviving entries keep their relative order. -/
theorem C6_enqueue_peek_remove (s : Store) (org : String) (job_id run_id : Nat)
    (job_name repo : String) (labels : List String) (now : Nat) (j : PendingJob) :
    (∃ e ∈ peek_all_pending_jobs_sync
        (add_pending_job_sync s org job_id run_id job_name repo labels now),
      e.2.2.job_id = job_id) ∧
    ((s.pending.map Prod.fst).Nodup →
      (∀ p ∈ s.pending, p.1 ≠ j.org_name → ∀ j' ∈ p.2, j'.job_id ≠ j.job_id) →
      ∀ e ∈ peek_all_pending_jobs_sync
          (remove_pending_jobs_by_job_ids_sync s [j]).2,
        e.2.2.job_id ≠ j.job_id) ∧
    (∀ T, ((aget (remove_pending_jobs_by_job_ids_sync s [j]).2.pending T).getD
        []).Sublist ((aget s.pending T).getD [])) :=
  ⟨enqueue_then_peek s org job_id run_id job_name repo labels now,
   fun hnd huniq => remove_then_peek_not_mem s j hnd huniq,
   fun T => remove_preserves_order s j T⟩

/-- C6 witness: removing the only queued job of tenant `A` from `c6Store`
leaves a peeked view with no entry of its id. -/
theorem C6_enqueue_peek_remove_witness :
    ((c6Store.pending.map Prod.fst).Nodup ∧
      (∀ p ∈ c6Store.pending, p.1 ≠ c6Job.org_name →
        ∀ j' ∈ p.2, j'.job_id ≠ c6Job.job_id)) ∧
    (∀ e ∈ peek_all_pending_jobs_sync
        (remove_pending_jobs_by_job_ids_sync c6Store [c6Job]).2,
      e.2.2.job_id ≠ c6Job.job_id) :=
  ⟨⟨by decide, by decide⟩,
   (C6_enqueue_peek_remove c6Store "A" 1 1 "a" "A/r" ["code-linux"] 1
      c6Job).2.1 (by decide) (by decide)⟩

end JitRunner
